import Mathlib

/-!
Verification of the `webcache` HTTP caching layer.

Go strings are embedded as `List Char` (`Str`); Go `time.Time` instants as
unbounded `Int` nanoseconds (Go's `time.Time` range far exceeds anything the
code can construct here; the zero `time.Time` is the instant `0`); Go
`time.Duration` and `int` arithmetic as `Int` with an explicit 64-bit wrap
(`wrap64`) at the operations the source performs on machine integers.
`net/http.ParseTime` (standard library, outside this repository) is kept
abstract: every definition that parses a `Date`/`Expires` header takes the
parser as an explicit argument `pt : Str → Option Time`, where `none` is a
parse error and `some t` the parsed instant.

The freshness checkers of `freshness.go` all return a `nil` error (each stage
either returns a definitive value with `nil` error or delegates to the next),
so the `(Freshness, error)` interface is embedded as plain `Freshness`.
-/

abbrev Str : Type := List Char

/-- Go `strings.Split` with a one-character separator: splits at every
occurrence of the separator; `Split("", sep) = [""]`. -/
def splitChar (sep : Char) : Str → List Str
  | [] => [[]]
  | c :: cs =>
    if c = sep then [] :: splitChar sep cs
    else
      match splitChar sep cs with
      | [] => [[c]]
      | t :: ts => (c :: t) :: ts

/-- Go `unicode.IsSpace` restricted to ASCII, which is what header text uses. -/
def goIsSpace (c : Char) : Bool :=
  c = ' ' ∨ c = '\t' ∨ c = '\n' ∨ c = '\r' ∨ c = '\x0b' ∨ c = '\x0c'

/-- Go `strings.TrimSpace`. -/
def trimSpace (s : Str) : Str :=
  ((s.dropWhile goIsSpace).reverse.dropWhile goIsSpace).reverse

/-- Decimal digit run: `some n` when the string is nonempty and all digits. -/
def parseDigits (s : Str) : Option Nat :=
  if s = [] then none
  else
    s.foldl
      (fun acc c =>
        match acc with
        | none => none
        | some n => if c.isDigit then some (n * 10 + (c.toNat - 48)) else none)
      (some 0)

/-- Go `strconv.Atoi`: optional sign, decimal digits, 64-bit signed range;
`none` models a non-nil error. -/
def goAtoi (s : Str) : Option Int :=
  match s with
  | '+' :: rest =>
    match parseDigits rest with
    | none => none
    | some n => if (n : Int) ≤ 2 ^ 63 - 1 then some (n : Int) else none
  | '-' :: rest =>
    match parseDigits rest with
    | none => none
    | some n => if (n : Int) ≤ 2 ^ 63 then some (-(n : Int)) else none
  | _ =>
    match parseDigits s with
    | none => none
    | some n => if (n : Int) ≤ 2 ^ 63 - 1 then some (n : Int) else none

/-- Two's-complement wrap of Go 64-bit signed arithmetic. -/
def wrap64 (x : Int) : Int :=
  (x + 2 ^ 63) % 2 ^ 64 - 2 ^ 63

/-- Go `time.Time` instants, in nanoseconds; `0` is the zero `time.Time`. -/
abbrev Time : Type := Int

def nsPerSecond : Int := 1000000000

/-- Go `time.Duration(maxAge) * time.Second`: an `int64` multiplication that
wraps on overflow. -/
def secondsToDuration (maxAge : Int) : Int :=
  wrap64 (maxAge * nsPerSecond)

/-- Go `net/http.Header`: a map from canonical header name to the list of
values, embedded as an association list. -/
abbrev Headers : Type := List (Str × List Str)

/-- Go `http.Header.Get`: first value for the key, `""` when absent. -/
def hGet (h : Headers) (k : Str) : Str :=
  match h.lookup k with
  | some (v :: _) => v
  | _ => []

/-- Replace the value of `k` by `v` (first occurrence; keys are unique in the
maps the code builds), or append when absent. Models Go map assignment and
`http.Header.Set`. -/
def upsert {β : Type} : List (Str × β) → Str → β → List (Str × β)
  | [], k, v => [(k, v)]
  | (k', v') :: rest, k, v =>
    if k' = k then (k, v) :: rest else (k', v') :: upsert rest k v

/-- Go map `delete`. -/
def eraseKey {β : Type} (l : List (Str × β)) (k : Str) : List (Str × β) :=
  l.filter (fun p => ¬ p.1 = k)

def cacheControlHeaderKey : Str :=
  ['C', 'a', 'c', 'h', 'e', '-', 'C', 'o', 'n', 't', 'r', 'o', 'l']

def cacheControlKeyMaxAge : Str := ['m', 'a', 'x', '-', 'a', 'g', 'e']
def cacheControlKeyPublic : Str := ['p', 'u', 'b', 'l', 'i', 'c']
def cacheControlKeyPrivate : Str := ['p', 'r', 'i', 'v', 'a', 't', 'e']
def cacheControlKeyNoStore : Str := ['n', 'o', '-', 's', 't', 'o', 'r', 'e']
def cacheControlKeyNoCache : Str := ['n', 'o', '-', 'c', 'a', 'c', 'h', 'e']
def cacheControlKeyMustRevalidate : Str :=
  ['m', 'u', 's', 't', '-', 'r', 'e', 'v', 'a', 'l', 'i', 'd', 'a', 't', 'e']
def cacheControlKeyProxyRevalidate : Str :=
  ['p', 'r', 'o', 'x', 'y', '-', 'r', 'e', 'v', 'a', 'l', 'i', 'd', 'a', 't', 'e']

def ageHeaderKey : Str := ['A', 'g', 'e']
def dateHeaderKey : Str := ['D', 'a', 't', 'e']
def expiresHeaderKey : Str := ['E', 'x', 'p', 'i', 'r', 'e', 's']

/-- Errors of `header.go`. -/
inductive HeaderError : Type
  | invalidMaxAge
  | maxAgeNotFound
  | invalidResponseDate
  | invalidExpireDate
deriving DecidableEq

/-- Go `type CacheControl map[cacheControlKey]string`, as an association list
with unique keys. -/
abbrev CacheControl : Type := List (Str × Str)

def CacheControl.MaxAge (c : CacheControl) : Except HeaderError Int :=
  match c.lookup cacheControlKeyMaxAge with
  | none => .error .maxAgeNotFound
  | some v =>
    match goAtoi v with
    | none => .error .invalidMaxAge
    | some maxAge => .ok maxAge

def CacheControl.Public (c : CacheControl) : Bool :=
  (c.lookup cacheControlKeyPublic).isSome

def CacheControl.Private (c : CacheControl) : Bool :=
  (c.lookup cacheControlKeyPrivate).isSome

/-- Modelled from the spec: `CacheControl.NoStore` is not under `src/`; the
spec describes it as a boolean presence check of the `no-store` directive. -/
def CacheControl.NoStore (c : CacheControl) : Bool :=
  (c.lookup cacheControlKeyNoStore).isSome

/-- Modelled from the spec: `CacheControl.NoCache` is not under `src/`; the
spec describes it as a boolean presence check of the `no-cache` directive. -/
def CacheControl.NoCache (c : CacheControl) : Bool :=
  (c.lookup cacheControlKeyNoCache).isSome

/-- Modelled from the spec: `CacheControl.NoCacheEquivalent` is not under
`src/`; the spec describes it as true for directive combinations that mandate
revalidation without a literal `no-cache` token, suggesting
(`must-revalidate` or `proxy-revalidate`) together with `max-age ≤ 0`, which
matches the repository's test using `max-age=0, must-revalidate`. -/
def CacheControl.NoCacheEquivalent (c : CacheControl) : Bool :=
  ((c.lookup cacheControlKeyMustRevalidate).isSome
      || (c.lookup cacheControlKeyProxyRevalidate).isSome)
    && match c.MaxAge with
      | .ok maxAge => decide (maxAge ≤ 0)
      | .error _ => false

/-- Modelled from the spec: `CacheControl.IsPresent` is not under `src/`; the
spec says storing is skipped when no cache-control header is present at all,
i.e. when the parsed directive set is empty. -/
def CacheControl.IsPresent (c : CacheControl) : Bool :=
  ¬ c = []

def ageFromHeader (h : Headers) : Except HeaderError Int :=
  match goAtoi (hGet h ageHeaderKey) with
  | none => .error .invalidMaxAge
  | some age => .ok age

def timeFromHeader (pt : Str → Option Time) (h : Headers) (key : Str) :
    Option Time :=
  pt (hGet h key)

def expiresFromHeader (pt : Str → Option Time) (h : Headers) :
    Except HeaderError Time :=
  match timeFromHeader pt h expiresHeaderKey with
  | none => .error .invalidExpireDate
  | some v => .ok v

def dateFromHeader (pt : Str → Option Time) (h : Headers) :
    Except HeaderError Time :=
  match timeFromHeader pt h dateHeaderKey with
  | none => .error .invalidResponseDate
  | some v => .ok v

def splitCacheControl (s : Str) : List Str :=
  splitChar ',' (trimSpace s)

def splitCacheControlKeyValue (s : Str) : List Str :=
  splitChar '=' (trimSpace s)

/-- The values of every `Cache-Control` entry of the header map, in order. -/
def cacheControlValues (h : Headers) : List Str :=
  (h.filter (fun p => p.1 = cacheControlHeaderKey)).flatMap (fun p => p.2)

def newCacheControl (h : Headers) : CacheControl :=
  (cacheControlValues h).foldl
    (fun cc vv =>
      (splitCacheControl vv).foldl
        (fun cc vvv =>
          match splitCacheControlKeyValue vvv with
          | [k, v] => upsert cc k v
          | [k] => upsert cc k []
          | _ => cc)
        cc)
    []

/-- Go `Freshness` constants (`FreshnessFresh`, `FreshnessStale`,
`FreshnesTransparent`). -/
inductive Freshness : Type
  | fresh
  | stale
  | transparent
deriving DecidableEq

/-- `freshnessFromMaxAge` of `freshness.go`: `clock.Now()` is passed as
`now`; `responseDated.IsZero()` is `responseDated = 0`; `After` is a strict
comparison of instants. -/
def freshnessFromMaxAge (maxAge : Int) (responseDated : Time) (now : Time) :
    Freshness :=
  if maxAge ≤ 0 then .stale
  else if responseDated = 0 then .stale
  else if now > responseDated + secondsToDuration maxAge then .stale
  else .fresh

/-- `freshnessFromExpire` of `freshness.go`. -/
def freshnessFromExpire (expireTime : Time) (responseDated : Time) :
    Freshness :=
  if expireTime = 0 then .transparent
  else if expireTime < responseDated then .stale
  else .fresh

/-- `freshnessFromAge` of `freshness.go`: `maxAge - age` is Go `int`
subtraction, which wraps at 64 bits. -/
def freshnessFromAge (age : Int) (maxAge : Int) : Freshness :=
  if wrap64 (maxAge - age) > 0 then .fresh else .stale

/-- A freshness checker is a function of headers and directive set; the
`next` field of each Go checker struct becomes an explicit argument. -/
abbrev FreshnessChecker : Type := Headers → CacheControl → Freshness

def transparentFreshness : FreshnessChecker :=
  fun _ _ => .transparent

def expireFreshnessChecker (pt : Str → Option Time)
    (next : FreshnessChecker) : FreshnessChecker :=
  fun header cacheControlHeader =>
    match expiresFromHeader pt header with
    | .error _ => next header cacheControlHeader
    | .ok expires =>
      match dateFromHeader pt header with
      | .error _ => next header cacheControlHeader
      | .ok date => freshnessFromExpire expires date

def maxAgeFreshnessChecker (pt : Str → Option Time) (now : Time)
    (next : FreshnessChecker) : FreshnessChecker :=
  fun header cacheControlHeader =>
    match cacheControlHeader.MaxAge with
    | .error _ => next header cacheControlHeader
    | .ok maxAge =>
      match dateFromHeader pt header with
      | .error _ => next header cacheControlHeader
      | .ok date => freshnessFromMaxAge maxAge date now

def ageFreshnessChecker (next : FreshnessChecker) : FreshnessChecker :=
  fun header cacheControlHeader =>
    match cacheControlHeader.MaxAge with
    | .error _ => next header cacheControlHeader
    | .ok maxAge =>
      match ageFromHeader header with
      | .error _ => next header cacheControlHeader
      | .ok age => freshnessFromAge age maxAge

def noCacheFreshness (next : FreshnessChecker) : FreshnessChecker :=
  fun header cacheControlHeader =>
    if cacheControlHeader.NoCache then .stale
    else if cacheControlHeader.NoCacheEquivalent then .stale
    else next header cacheControlHeader

/-- `newFreshnerChecker` of `freshness.go`: the stage chain
no-cache → age → max-age/date → expires → transparent. -/
def newFreshnerChecker (pt : Str → Option Time) (now : Time) :
    FreshnessChecker :=
  noCacheFreshness
    (ageFreshnessChecker
      (maxAgeFreshnessChecker pt now
        (expireFreshnessChecker pt
          transparentFreshness)))

deriving instance DecidableEq for Except

/-- Go `http.Response`: status code, headers, and an opaque body. -/
structure Response : Type where
  status : Nat
  header : Headers
  body : Str
deriving DecidableEq

/-- Go `http.Request`: the identity parts the cache key is built from, plus
the header collection the validator writes conditional headers into. -/
structure Request : Type where
  method : Str
  url : Str
  header : Headers
deriving DecidableEq

def xCacheHeaderKey : Str := ['X', '-', 'C', 'a', 'c', 'h', 'e']
def xCacheHit : Str := ['H', 'I', 'T']
def etagHeaderKey : Str := ['E', 't', 'a', 'g']
def lastModifiedHeaderKey : Str :=
  ['L', 'a', 's', 't', '-', 'M', 'o', 'd', 'i', 'f', 'i', 'e', 'd']
def ifNoneMatchHeaderKey : Str :=
  ['I', 'f', '-', 'N', 'o', 'n', 'e', '-', 'M', 'a', 't', 'c', 'h']
def ifModifiedSinceHeaderKey : Str :=
  ['I', 'f', '-', 'M', 'o', 'd', 'i', 'f', 'i', 'e', 'd', '-', 'S', 'i', 'n', 'c', 'e']

/-- `isCached` of the repository: the response carries the cache-hit marker
`X-Cache: HIT`. -/
def isCached (r : Response) : Bool :=
  hGet r.header xCacheHeaderKey = xCacheHit

/-- Modelled from the spec: `withCacheHitHeader` is not under `src/`; the
spec's cache-hit marker is a sentinel header, and `isCached` (in `src/`)
reads it as `X-Cache: HIT`, so the marker sets that header. -/
def withCacheHitHeader (h : Headers) : Headers :=
  upsert h xCacheHeaderKey [xCacheHit]

/-- Modelled from the spec: `buildCacheKey` is not under `src/`; the spec's
KeyBuilder is a pure deterministic function of the request's method and
absolute URL. -/
def buildCacheKey (r : Request) : Str :=
  r.method ++ ' ' :: r.url

/-- The pluggable storage backend: an association list from cache key to the
stored response snapshot. -/
abbrev Store : Type := List (Str × Response)

def storeGet (st : Store) (k : Str) : Option Response := st.lookup k

def storeSet (st : Store) (k : Str) (v : Response) : Store := upsert st k v

def storeDelete (st : Store) (k : Str) : Store := eraseKey st k

/-- `httpCache.Get` of the repository: look the request's key up. -/
def httpCacheGet (st : Store) (r : Request) : Option Response :=
  storeGet st (buildCacheKey r)

/-- `httpCache.Set` of the repository. -/
def httpCacheSet (st : Store) (r : Request) (response : Response) : Store :=
  storeSet st (buildCacheKey r) response

/-- `httpCache.Delete` of the repository. -/
def httpCacheDelete (st : Store) (r : Request) : Store :=
  storeDelete st (buildCacheKey r)

/-- The external fetch capability `http.RoundTripper`: one synchronous call
returning a response or a transport error of type `E`. -/
abbrev RoundTripper (E : Type) : Type := Request → Except E Response

/-- Modelled from the spec: the conditional request the RevalidationValidator
builds — the same logical request with `If-None-Match` attached from a stored
`ETag` and `If-Modified-Since` from a stored `Last-Modified`, when available. -/
def withConditionalHeaders (stored : Response) (r : Request) : Request :=
  let r1 :=
    if hGet stored.header etagHeaderKey = [] then r
    else { r with
      header := upsert r.header ifNoneMatchHeaderKey
        [hGet stored.header etagHeaderKey] }
  if hGet stored.header lastModifiedHeaderKey = [] then r1
  else { r1 with
    header := upsert r1.header ifModifiedSinceHeaderKey
      [hGet stored.header lastModifiedHeaderKey] }

/-- Modelled from the spec: `newResponseValidator(...).Validate` is not under
`src/`. Per the spec it executes exactly one conditional fetch: a transport
error is propagated unchanged; a "not modified" origin answer (status 304)
yields outcome Validated — the stored body is kept and the result is tagged
with the cache-hit marker; any other answer yields outcome Replaced — the new
response is the result. -/
def validate {E : Type} (rt : RoundTripper E) (stored : Response)
    (r : Request) : Except E Response :=
  match rt (withConditionalHeaders stored r) with
  | .error e => .error e
  | .ok resp =>
    if resp.status = 304 then
      .ok { stored with header := withCacheHitHeader stored.header }
    else .ok resp

/-- The `Transport` struct: the wrapped round tripper and the
`shouldCachePrivateResponses` flag; the clock is passed to each call as
`now`, the abstract date parser as `pt`. -/
structure Transport (E : Type) : Type where
  rt : RoundTripper E
  shouldCachePrivateResponses : Bool

/-- `Transport.roundTripWithCachedResponse` of the repository: the cache-hit
path. The storage backend state is passed and returned explicitly. -/
def Transport.roundTripWithCachedResponse {E : Type} (t : Transport E)
    (pt : Str → Option Time) (now : Time) (st : Store) (response : Response)
    (r : Request) : Except E Response × Store :=
  let cacheControl := newCacheControl response.header
  match newFreshnerChecker pt now response.header cacheControl with
  | .fresh =>
    (.ok { response with header := withCacheHitHeader response.header }, st)
  | .stale =>
    match validate t.rt response r with
    | .error e => (.error e, st)
    | .ok resp =>
      if cacheControl.NoStore then (.ok resp, httpCacheDelete st r)
      else if isCached resp then (.ok resp, st)
      else (.ok resp, httpCacheSet st r resp)
  | .transparent => (t.rt r, st)

/-- `Transport.RoundTrip` of the repository: cache lookup, then either the
cached-response path or the miss path with its storability decision. -/
def Transport.RoundTrip {E : Type} (t : Transport E)
    (pt : Str → Option Time) (now : Time) (st : Store) (r : Request) :
    Except E Response × Store :=
  match httpCacheGet st r with
  | some response => t.roundTripWithCachedResponse pt now st response r
  | none =>
    match t.rt r with
    | .error e => (.error e, st)
    | .ok response =>
      let cacheControl := newCacheControl response.header
      if ¬ cacheControl.IsPresent then (.ok response, st)
      else if cacheControl.NoStore then (.ok response, st)
      else if cacheControl.NoCache || cacheControl.NoCacheEquivalent then
        (.ok response, st)
      else if ¬ t.shouldCachePrivateResponses ∧ cacheControl.Private then
        (.ok response, st)
      else (.ok response, httpCacheSet st r response)

theorem wrap64_eq_self {x : Int} (h1 : -(2 ^ 63) ≤ x) (h2 : x < 2 ^ 63) :
    wrap64 x = x := by
  have hpow : (2 : Int) ^ 64 = 2 ^ 63 + 2 ^ 63 := by norm_num
  unfold wrap64
  rw [Int.emod_eq_of_lt (by linarith) (by linarith)]
  ring

/-- C2: whenever `NoCache()` or `NoCacheEquivalent()` holds of the directive
set, the freshness pipeline returns Stale, whatever the headers, the clock
and the date parser say — the mandatory-revalidation stage runs first and
overrides every timing stage. -/
theorem freshness_noCache_forces_stale (pt : Str → Option Time) (now : Time)
    (h : Headers) (cc : CacheControl)
    (hyp : cc.NoCache = true ∨ cc.NoCacheEquivalent = true) :
    newFreshnerChecker pt now h cc = .stale := by
  unfold newFreshnerChecker noCacheFreshness
  rcases hyp with hy | hy
  · simp [hy]
  · by_cases hc : cc.NoCache <;> simp [hc, hy]

theorem freshness_noCache_forces_stale_witness :
    (newCacheControl [(cacheControlHeaderKey,
        ["no-cache, max-age=100".toList])]).NoCache = true ∧
      newFreshnerChecker goAtoi 0
        [(cacheControlHeaderKey, ["no-cache, max-age=100".toList])]
        (newCacheControl [(cacheControlHeaderKey,
          ["no-cache, max-age=100".toList])]) = .stale :=
  ⟨by decide,
    freshness_noCache_forces_stale goAtoi 0 _ _ (Or.inl (by decide))⟩

/-- C3, counterexample: with `max-age=9223372036854775807` and `Age: -1`,
both of which parse, the mathematical difference MaxAge − Age is `2 ^ 63 > 0`
so the claim demands Fresh, but the Go `int` subtraction wraps to a negative
value and the pipeline returns Stale. -/
theorem freshness_age_stage_cex :
    newFreshnerChecker goAtoi 0
      [(cacheControlHeaderKey, ["max-age=9223372036854775807".toList]),
        (ageHeaderKey, ["-1".toList])]
      (newCacheControl
        [(cacheControlHeaderKey, ["max-age=9223372036854775807".toList]),
          (ageHeaderKey, ["-1".toList])]) = .stale ∧
      (9223372036854775807 : Int) - (-1) > 0 := by
  constructor
  · decide
  · decide

/-- C3, amended: when the mandatory-revalidation stage does not fire,
`MaxAge()` succeeds, the `Age` header parses, and MaxAge − Age does not
overflow a 64-bit integer, the pipeline returns Fresh exactly when
MaxAge − Age > 0 and Stale otherwise (equality gives Stale); the result does
not depend on the clock or on any `Date` header. -/
theorem freshness_age_stage (pt : Str → Option Time) (now : Time)
    (h : Headers) (cc : CacheControl) (maxAge age : Int)
    (h1 : cc.NoCache = false) (h2 : cc.NoCacheEquivalent = false)
    (h3 : cc.MaxAge = .ok maxAge) (h4 : ageFromHeader h = .ok age)
    (h5 : -(2 ^ 63) ≤ maxAge - age) (h6 : maxAge - age < 2 ^ 63) :
    newFreshnerChecker pt now h cc =
      (if maxAge - age > 0 then .fresh else .stale) := by
  unfold newFreshnerChecker noCacheFreshness ageFreshnessChecker
  simp only [h1, h2, h3, h4, Bool.false_eq_true, if_false]
  unfold freshnessFromAge
  rw [wrap64_eq_self h5 h6]

theorem freshness_age_stage_witness :
    (newCacheControl [(cacheControlHeaderKey, ["max-age=100".toList]),
        (ageHeaderKey, ["100".toList])]).MaxAge = .ok 100 ∧
      ageFromHeader [(cacheControlHeaderKey, ["max-age=100".toList]),
        (ageHeaderKey, ["100".toList])] = .ok 100 ∧
      newFreshnerChecker goAtoi 0
        [(cacheControlHeaderKey, ["max-age=100".toList]),
          (ageHeaderKey, ["100".toList])]
        (newCacheControl [(cacheControlHeaderKey, ["max-age=100".toList]),
          (ageHeaderKey, ["100".toList])]) =
        (if (100 : Int) - 100 > 0 then .fresh else .stale) :=
  ⟨by decide, by decide,
    freshness_age_stage goAtoi 0 _ _ 100 100 (by decide) (by decide)
      (by decide) (by decide) (by decide) (by decide)⟩

/-- C4, counterexample: `Cache-Control: max-age=100` with no `Date` header at
all — `MaxAge()` succeeds, the date parse fails, no earlier stage applies —
and the pipeline returns Transparent, because the max-age/Date stage
delegates on a date-parse failure; the claim demands Stale. -/
theorem freshness_maxAge_missing_date_cex :
    (newCacheControl [(cacheControlHeaderKey,
        ["max-age=100".toList])]).MaxAge = .ok 100 ∧
      dateFromHeader goAtoi [(cacheControlHeaderKey,
        ["max-age=100".toList])] = .error .invalidResponseDate ∧
      newFreshnerChecker goAtoi 0
        [(cacheControlHeaderKey, ["max-age=100".toList])]
        (newCacheControl [(cacheControlHeaderKey,
          ["max-age=100".toList])]) = .transparent := by
  refine ⟨by decide, by decide, by decide⟩

/-- C4, amended: when `MaxAge()` succeeds, no earlier stage applies, and the
`Date` header is missing or unparsable, the max-age/Date stage delegates to
the Expires stage; and since that stage also needs the `Date` header, the
pipeline then returns Transparent, not Stale. -/
theorem freshness_maxAge_missing_date_delegates (pt : Str → Option Time)
    (now : Time) (h : Headers) (cc : CacheControl) (maxAge : Int)
    (e1 e2 : HeaderError)
    (h1 : cc.NoCache = false) (h2 : cc.NoCacheEquivalent = false)
    (h3 : cc.MaxAge = .ok maxAge) (h4 : ageFromHeader h = .error e1)
    (h5 : dateFromHeader pt h = .error e2) :
    newFreshnerChecker pt now h cc = .transparent := by
  unfold newFreshnerChecker noCacheFreshness ageFreshnessChecker
    maxAgeFreshnessChecker expireFreshnessChecker transparentFreshness
  simp only [h1, h2, h3, h4, h5, Bool.false_eq_true, if_false]
  cases hx : expiresFromHeader pt h <;> simp [hx, h5]

theorem freshness_maxAge_missing_date_delegates_witness :
    (newCacheControl [(cacheControlHeaderKey,
        ["max-age=40".toList])]).MaxAge = .ok 40 ∧
      newFreshnerChecker goAtoi 7
        [(cacheControlHeaderKey, ["max-age=40".toList])]
        (newCacheControl [(cacheControlHeaderKey,
          ["max-age=40".toList])]) = .transparent :=
  ⟨by decide,
    freshness_maxAge_missing_date_delegates goAtoi 7 _ _ 40
      .invalidMaxAge .invalidResponseDate (by decide) (by decide) (by decide)
      (by decide) (by decide)⟩

/-- C5, counterexample: `max-age=100`, `Date` parsing to instant 5, clock
reading exactly `Date + 100 seconds` — the claim demands Stale at this
boundary, but `clock.Now().After(...)` is strict, so the pipeline returns
Fresh. -/
theorem freshness_maxAge_boundary_cex :
    (100000000005 : Int) = 5 + 100 * nsPerSecond ∧
      newFreshnerChecker goAtoi 100000000005
        [(cacheControlHeaderKey, ["max-age=100".toList]),
          (dateHeaderKey, ["5".toList])]
        (newCacheControl [(cacheControlHeaderKey, ["max-age=100".toList]),
          (dateHeaderKey, ["5".toList])]) = .fresh := by
  refine ⟨by decide, by decide⟩

/-- C5, amended: when the mandatory-revalidation and Age stages do not apply,
`MaxAge()` succeeds and `Date` parses to `d`: if MaxAge ≤ 0 the stage returns
Stale; otherwise, provided `d` is not the zero instant and MaxAge in
nanoseconds fits in 64 bits, it returns Fresh exactly when
`now ≤ d + MaxAge seconds` — so at `now = d + MaxAge seconds` the result is
Fresh, and Stale begins only strictly after the deadline. -/
theorem freshness_maxAge_date_stage (pt : Str → Option Time) (now : Time)
    (h : Headers) (cc : CacheControl) (maxAge : Int) (d : Time)
    (e1 : HeaderError)
    (h1 : cc.NoCache = false) (h2 : cc.NoCacheEquivalent = false)
    (h3 : cc.MaxAge = .ok maxAge) (h4 : ageFromHeader h = .error e1)
    (h5 : dateFromHeader pt h = .ok d) :
    (maxAge ≤ 0 → newFreshnerChecker pt now h cc = .stale) ∧
      (0 < maxAge → d ≠ 0 → maxAge * nsPerSecond < 2 ^ 63 →
        newFreshnerChecker pt now h cc =
          (if now ≤ d + maxAge * nsPerSecond then .fresh else .stale)) := by
  unfold newFreshnerChecker noCacheFreshness ageFreshnessChecker
    maxAgeFreshnessChecker
  simp only [h1, h2, h3, h4, h5, Bool.false_eq_true, if_false]
  unfold freshnessFromMaxAge secondsToDuration
  constructor
  · intro hle
    simp [hle]
  · intro hpos hd hfit
    have hlow : -(2 ^ 63) ≤ maxAge * nsPerSecond := by
      have hns : (0 : Int) ≤ nsPerSecond := by norm_num [nsPerSecond]
      have := mul_nonneg (le_of_lt hpos) hns
      linarith
    rw [if_neg (by linarith), if_neg hd, wrap64_eq_self hlow hfit]
    by_cases hnow : now ≤ d + maxAge * nsPerSecond
    · rw [if_neg (by linarith), if_pos hnow]
    · rw [if_pos (by linarith), if_neg hnow]

theorem freshness_maxAge_date_stage_witness :
    (newCacheControl [(cacheControlHeaderKey, ["max-age=120".toList]),
        (dateHeaderKey, ["5".toList])]).MaxAge = .ok 120 ∧
      dateFromHeader goAtoi [(cacheControlHeaderKey,
        ["max-age=120".toList]), (dateHeaderKey, ["5".toList])] = .ok 5 ∧
      ((120 : Int) ≤ 0 →
        newFreshnerChecker goAtoi 9
          [(cacheControlHeaderKey, ["max-age=120".toList]),
            (dateHeaderKey, ["5".toList])]
          (newCacheControl [(cacheControlHeaderKey, ["max-age=120".toList]),
            (dateHeaderKey, ["5".toList])]) = .stale) ∧
      ((0 : Int) < 120 → (5 : Time) ≠ 0 →
        (120 : Int) * nsPerSecond < 2 ^ 63 →
        newFreshnerChecker goAtoi 9
          [(cacheControlHeaderKey, ["max-age=120".toList]),
            (dateHeaderKey, ["5".toList])]
          (newCacheControl [(cacheControlHeaderKey, ["max-age=120".toList]),
            (dateHeaderKey, ["5".toList])]) =
          (if (9 : Int) ≤ 5 + 120 * nsPerSecond then .fresh else .stale)) :=
  ⟨by decide, by decide,
    (freshness_maxAge_date_stage goAtoi 9 _ _ 120 5 .invalidMaxAge
      (by decide) (by decide) (by decide) (by decide) (by decide)).1,
    (freshness_maxAge_date_stage goAtoi 9 _ _ 120 5 .invalidMaxAge
      (by decide) (by decide) (by decide) (by decide) (by decide)).2⟩

/-- C9: when the mandatory-revalidation stage does not fire, `MaxAge()`
fails, and the `Expires`/`Date` pair does not fully parse, the pipeline
returns Transparent — no applicable signal is present. -/
theorem freshness_no_signal_transparent (pt : Str → Option Time) (now : Time)
    (h : Headers) (cc : CacheControl) (e1 : HeaderError)
    (h1 : cc.NoCache = false) (h2 : cc.NoCacheEquivalent = false)
    (h3 : cc.MaxAge = .error e1)
    (h4 : (∃ e, expiresFromHeader pt h = .error e)
        ∨ (∃ e, dateFromHeader pt h = .error e)) :
    newFreshnerChecker pt now h cc = .transparent := by
  unfold newFreshnerChecker noCacheFreshness ageFreshnessChecker
    maxAgeFreshnessChecker expireFreshnessChecker transparentFreshness
  simp only [h1, h2, h3, Bool.false_eq_true, if_false]
  rcases h4 with ⟨e, he⟩ | ⟨e, he⟩
  · simp [he]
  · cases hx : expiresFromHeader pt h <;> simp [hx, he]

theorem freshness_no_signal_transparent_witness :
    (newCacheControl [(cacheControlHeaderKey,
        ["public".toList])]).MaxAge = .error .maxAgeNotFound ∧
      newFreshnerChecker goAtoi 3
        [(cacheControlHeaderKey, ["public".toList])]
        (newCacheControl [(cacheControlHeaderKey,
          ["public".toList])]) = .transparent :=
  ⟨by decide,
    freshness_no_signal_transparent goAtoi 3 _ _ .maxAgeNotFound (by decide)
      (by decide) (by decide)
      (Or.inl ⟨.invalidExpireDate, by decide⟩)⟩

/-- C10: when `Expires` parses but `Date` is missing or unparsable (and no
earlier stage applies), the Expires/Date stage delegates instead of
deciding, so the pipeline returns Transparent rather than Fresh or Stale. -/
theorem freshness_expires_without_date_transparent (pt : Str → Option Time)
    (now : Time) (h : Headers) (cc : CacheControl) (e1 : HeaderError)
    (ex : Time) (e2 : HeaderError)
    (h1 : cc.NoCache = false) (h2 : cc.NoCacheEquivalent = false)
    (h3 : cc.MaxAge = .error e1)
    (h4 : expiresFromHeader pt h = .ok ex)
    (h5 : dateFromHeader pt h = .error e2) :
    newFreshnerChecker pt now h cc = .transparent := by
  unfold newFreshnerChecker noCacheFreshness ageFreshnessChecker
    maxAgeFreshnessChecker expireFreshnessChecker transparentFreshness
  simp [h1, h2, h3, h4, h5]

theorem freshness_expires_without_date_transparent_witness :
    expiresFromHeader goAtoi [(expiresHeaderKey, ["77".toList])] = .ok 77 ∧
      dateFromHeader goAtoi [(expiresHeaderKey, ["77".toList])] =
        .error .invalidResponseDate ∧
      newFreshnerChecker goAtoi 4 [(expiresHeaderKey, ["77".toList])]
        (newCacheControl [(expiresHeaderKey, ["77".toList])]) =
        .transparent :=
  ⟨by decide, by decide,
    freshness_expires_without_date_transparent goAtoi 4 _ _ .maxAgeNotFound
      77 .invalidResponseDate (by decide) (by decide) (by decide) (by decide)
      (by decide)⟩

theorem lookup_upsert {β : Type} (l : List (Str × β)) (k : Str) (v : β) :
    (upsert l k v).lookup k = some v := by
  induction l with
  | nil => simp [upsert, List.lookup]
  | cons p t ih =>
    obtain ⟨k', v'⟩ := p
    by_cases hk : k' = k
    · subst hk
      simp [upsert, List.lookup]
    · have hbeq : (k == k') = false := by
        simp only [beq_eq_false_iff_ne, ne_eq]
        exact fun hx => hk hx.symm
      simp only [upsert, if_neg hk, List.lookup, hbeq]
      exact ih

theorem hGet_withCacheHitHeader (h : Headers) :
    hGet (withCacheHitHeader h) xCacheHeaderKey = xCacheHit := by
  unfold hGet withCacheHitHeader
  rw [lookup_upsert]

/-- The storability rule of the spec's cache-miss contract, written from the
spec's words: a cache-control header is present, `NoStore()` does not hold,
neither `NoCache()` nor `NoCacheEquivalent()` holds, and the response is not
`Private()` unless caching private responses is enabled. -/
def storablePerSpec {E : Type} (t : Transport E) (resp : Response) : Prop :=
  (newCacheControl resp.header).IsPresent = true ∧
    (newCacheControl resp.header).NoStore = false ∧
    (newCacheControl resp.header).NoCache = false ∧
    (newCacheControl resp.header).NoCacheEquivalent = false ∧
    ((newCacheControl resp.header).Private = true →
      t.shouldCachePrivateResponses = true)

instance {E : Type} (t : Transport E) (resp : Response) :
    Decidable (storablePerSpec t resp) := by
  unfold storablePerSpec
  infer_instance

/-- C6: on a cache miss whose origin fetch succeeds, `Transport.RoundTrip`
returns the fetched response and stores it under the request's cache key if
and only if the spec's storability rule holds; otherwise the store is left
unchanged. -/
theorem roundTrip_miss_storability {E : Type} (t : Transport E)
    (pt : Str → Option Time) (now : Time) (st : Store) (r : Request)
    (resp : Response)
    (hmiss : httpCacheGet st r = none) (hfetch : t.rt r = .ok resp) :
    t.RoundTrip pt now st r =
      (.ok resp,
        if storablePerSpec t resp then httpCacheSet st r resp else st) := by
  unfold Transport.RoundTrip
  simp only [hmiss, hfetch]
  rcases hpres : (newCacheControl resp.header).IsPresent with _ | _ <;>
    rcases hns : (newCacheControl resp.header).NoStore with _ | _ <;>
      rcases hnc : (newCacheControl resp.header).NoCache with _ | _ <;>
        rcases hne : (newCacheControl resp.header).NoCacheEquivalent
            with _ | _ <;>
          rcases hpriv : (newCacheControl resp.header).Private with _ | _ <;>
            rcases hflag : t.shouldCachePrivateResponses with _ | _ <;>
              simp_all [storablePerSpec]

theorem roundTrip_miss_storability_witness :
    httpCacheGet [] ⟨"GET".toList, "http://example.com".toList, []⟩ = none ∧
      Transport.RoundTrip
          (E := Unit)
          ⟨fun _ => .ok ⟨200,
            [(cacheControlHeaderKey, ["max-age=100".toList])], []⟩, false⟩
          goAtoi 0 [] ⟨"GET".toList, "http://example.com".toList, []⟩ =
        (.ok ⟨200, [(cacheControlHeaderKey, ["max-age=100".toList])], []⟩,
          if storablePerSpec
              (E := Unit)
              ⟨fun _ => .ok ⟨200,
                [(cacheControlHeaderKey, ["max-age=100".toList])], []⟩,
                false⟩
              ⟨200, [(cacheControlHeaderKey, ["max-age=100".toList])], []⟩
            then httpCacheSet []
              ⟨"GET".toList, "http://example.com".toList, []⟩
              ⟨200, [(cacheControlHeaderKey, ["max-age=100".toList])], []⟩
            else []) :=
  ⟨by decide,
    roundTrip_miss_storability _ goAtoi 0 [] _ _ (by decide) rfl⟩

/-- C7: on a stale cache hit whose revalidation fetch fails with a transport
error, `Transport.RoundTrip` propagates that error unchanged and leaves the
store exactly as it was. -/
theorem roundTrip_stale_fetch_error {E : Type} (t : Transport E)
    (pt : Str → Option Time) (now : Time) (st : Store) (r : Request)
    (stored : Response) (e : E)
    (hhit : httpCacheGet st r = some stored)
    (hstale : newFreshnerChecker pt now stored.header
        (newCacheControl stored.header) = .stale)
    (herr : t.rt (withConditionalHeaders stored r) = .error e) :
    t.RoundTrip pt now st r = (.error e, st) := by
  unfold Transport.RoundTrip Transport.roundTripWithCachedResponse validate
  simp only [hhit, hstale, herr]

theorem roundTrip_stale_fetch_error_witness :
    httpCacheGet
        [("GET http://example.com".toList,
          ⟨200, [(cacheControlHeaderKey, ["no-cache".toList])], []⟩)]
        ⟨"GET".toList, "http://example.com".toList, []⟩ =
      some ⟨200, [(cacheControlHeaderKey, ["no-cache".toList])], []⟩ ∧
      newFreshnerChecker goAtoi 0
        [(cacheControlHeaderKey, ["no-cache".toList])]
        (newCacheControl [(cacheControlHeaderKey, ["no-cache".toList])]) =
        .stale ∧
      Transport.RoundTrip (E := Bool) ⟨fun _ => .error true, false⟩ goAtoi 0
          [("GET http://example.com".toList,
            ⟨200, [(cacheControlHeaderKey, ["no-cache".toList])], []⟩)]
          ⟨"GET".toList, "http://example.com".toList, []⟩ =
        (.error true,
          [("GET http://example.com".toList,
            ⟨200, [(cacheControlHeaderKey, ["no-cache".toList])], []⟩)]) :=
  ⟨by decide, by decide,
    roundTrip_stale_fetch_error (E := Bool) ⟨fun _ => .error true, false⟩
      goAtoi 0
      [("GET http://example.com".toList,
        ⟨200, [(cacheControlHeaderKey, ["no-cache".toList])], []⟩)]
      ⟨"GET".toList, "http://example.com".toList, []⟩
      ⟨200, [(cacheControlHeaderKey, ["no-cache".toList])], []⟩ true
      (by decide) (by decide) rfl⟩

/-- C1: on a cache hit, `Transport.RoundTrip` acts by the freshness
classification of the stored response. Fresh: it returns the stored response
tagged with the cache-hit marker, leaves the store unchanged, and performs no
network call (the result is the same for every round tripper). Stale: it
revalidates; if the stored response's directive set says `NoStore()` it
deletes the stored entry and returns the result; otherwise, when the result
carries the cache-hit marker (Validated) it returns it without re-storing,
and when it does not (Replaced) it overwrites the stored entry with it.
Transparent: it bypasses the cache and performs a normal fetch. -/
theorem roundTrip_hit_behaviour {E : Type} (t : Transport E)
    (pt : Str → Option Time) (now : Time) (st : Store) (r : Request)
    (stored : Response)
    (hhit : httpCacheGet st r = some stored) :
    (newFreshnerChecker pt now stored.header
        (newCacheControl stored.header) = .fresh →
      t.RoundTrip pt now st r =
        (.ok { stored with header := withCacheHitHeader stored.header },
          st) ∧
      isCached { stored with header := withCacheHitHeader stored.header } =
        true ∧
      ∀ rt2 : RoundTripper E,
        Transport.RoundTrip ⟨rt2, t.shouldCachePrivateResponses⟩ pt now st
          r = t.RoundTrip pt now st r) ∧
    (newFreshnerChecker pt now stored.header
        (newCacheControl stored.header) = .stale →
      ∀ v : Response, validate t.rt stored r = .ok v →
        ((newCacheControl stored.header).NoStore = true →
          t.RoundTrip pt now st r = (.ok v, httpCacheDelete st r)) ∧
        ((newCacheControl stored.header).NoStore = false →
          isCached v = true → t.RoundTrip pt now st r = (.ok v, st)) ∧
        ((newCacheControl stored.header).NoStore = false →
          isCached v = false →
          t.RoundTrip pt now st r = (.ok v, httpCacheSet st r v))) ∧
    (newFreshnerChecker pt now stored.header
        (newCacheControl stored.header) = .transparent →
      t.RoundTrip pt now st r = (t.rt r, st)) := by
  refine ⟨fun hf => ⟨?_, ?_, fun rt2 => ?_⟩,
    fun hs v hv => ⟨fun hns => ?_, fun hns hc => ?_, fun hns hc => ?_⟩,
    fun ht => ?_⟩
  · unfold Transport.RoundTrip Transport.roundTripWithCachedResponse
    simp only [hhit, hf]
  · simp [isCached, hGet_withCacheHitHeader]
  · unfold Transport.RoundTrip Transport.roundTripWithCachedResponse
    simp only [hhit, hf]
  · unfold Transport.RoundTrip Transport.roundTripWithCachedResponse
    simp only [hhit, hs, hv, hns, if_true]
  · unfold Transport.RoundTrip Transport.roundTripWithCachedResponse
    simp only [hhit, hs, hv, hns, hc, Bool.false_eq_true, if_false, if_true]
  · unfold Transport.RoundTrip Transport.roundTripWithCachedResponse
    simp only [hhit, hs, hv, hns, hc, Bool.false_eq_true, if_false]
  · unfold Transport.RoundTrip Transport.roundTripWithCachedResponse
    simp only [hhit, ht]

theorem roundTrip_hit_behaviour_witness :
    httpCacheGet
        [("GET http://example.com".toList,
          ⟨200, [(cacheControlHeaderKey, ["max-age=100".toList]),
            (dateHeaderKey, ["5".toList])], []⟩)]
        ⟨"GET".toList, "http://example.com".toList, []⟩ =
      some ⟨200, [(cacheControlHeaderKey, ["max-age=100".toList]),
        (dateHeaderKey, ["5".toList])], []⟩ ∧
      Transport.RoundTrip (E := Unit) ⟨fun _ => .ok ⟨304, [], []⟩, false⟩
          goAtoi 50
          [("GET http://example.com".toList,
            ⟨200, [(cacheControlHeaderKey, ["max-age=100".toList]),
              (dateHeaderKey, ["5".toList])], []⟩)]
          ⟨"GET".toList, "http://example.com".toList, []⟩ =
        (.ok ⟨200,
            withCacheHitHeader [(cacheControlHeaderKey,
              ["max-age=100".toList]), (dateHeaderKey, ["5".toList])], []⟩,
          [("GET http://example.com".toList,
            ⟨200, [(cacheControlHeaderKey, ["max-age=100".toList]),
              (dateHeaderKey, ["5".toList])], []⟩)]) :=
  ⟨by decide,
    ((roundTrip_hit_behaviour (E := Unit) ⟨fun _ => .ok ⟨304, [], []⟩, false⟩
        goAtoi 50
        [("GET http://example.com".toList,
          ⟨200, [(cacheControlHeaderKey, ["max-age=100".toList]),
            (dateHeaderKey, ["5".toList])], []⟩)]
        ⟨"GET".toList, "http://example.com".toList, []⟩
        ⟨200, [(cacheControlHeaderKey, ["max-age=100".toList]),
          (dateHeaderKey, ["5".toList])], []⟩
        (by decide)).1 (by decide)).1⟩

/-- Number of occurrences of a character in a string. -/
def countEq (c : Char) : Str → Nat
  | [] => 0
  | x :: xs => (if x = c then 1 else 0) + countEq c xs

theorem splitChar_length (c : Char) (s : Str) :
    (splitChar c s).length = countEq c s + 1 := by
  induction s with
  | nil => rfl
  | cons x xs ih =>
    by_cases hx : x = c
    · simp [splitChar, hx, countEq, ih, Nat.add_comm]
    · rcases hsp : splitChar c xs with _ | ⟨t, ts⟩
      · rw [hsp] at ih
        simp at ih
      · rw [hsp] at ih
        simp only [List.length_cons] at ih
        simp [splitChar, hx, hsp, countEq, ← ih]

theorem splitChar_of_countEq_zero (c : Char) (s : Str)
    (h : countEq c s = 0) : splitChar c s = [s] := by
  induction s with
  | nil => rfl
  | cons x xs ih =>
    unfold countEq at h
    by_cases hx : x = c
    · simp [hx] at h
    · simp only [if_neg hx, Nat.zero_add] at h
      simp [splitChar, hx, ih h]

theorem splitChar_of_countEq_one (c : Char) (s : Str)
    (h : countEq c s = 1) :
    splitChar c s =
      [s.takeWhile (fun a => ¬ a = c),
        (s.dropWhile (fun a => ¬ a = c)).tail] := by
  induction s with
  | nil => simp [countEq] at h
  | cons x xs ih =>
    unfold countEq at h
    by_cases hx : x = c
    · simp only [if_pos hx, Nat.add_right_cancel_iff] at h
      have h0 : countEq c xs = 0 := by omega
      simp [splitChar, hx, splitChar_of_countEq_zero c xs h0,
        List.takeWhile_cons, List.dropWhile_cons]
    · simp only [if_neg hx, Nat.zero_add] at h
      rw [splitChar]
      simp only [if_neg hx, ih h]
      simp [List.takeWhile_cons, List.dropWhile_cons, hx]

theorem lookup_upsert_ne {β : Type} (l : List (Str × β)) (k' k : Str)
    (v : β) (hne : ¬ k' = k) : (upsert l k' v).lookup k = l.lookup k := by
  have hbeq : (k == k') = false := by
    simp only [beq_eq_false_iff_ne, ne_eq]
    exact fun hx => hne hx.symm
  induction l with
  | nil => simp [upsert, List.lookup, hbeq]
  | cons p t ih =>
    obtain ⟨k1, v1⟩ := p
    by_cases hk : k1 = k'
    · subst hk
      simp [upsert, List.lookup, hbeq]
    · simp only [upsert, if_neg hk, List.lookup]
      rw [ih]

/-- The token handling of `newCacheControl`, per token: a two-part split is a
name/value pair, a one-part split a value-less directive, anything else is
skipped. -/
def codeRecord (u : Str) : Option (Str × Str) :=
  match splitChar '=' u with
  | [k, v] => some (k, v)
  | [k] => some (k, [])
  | _ => none

def applyRecord (cc : CacheControl) (rec : Option (Str × Str)) :
    CacheControl :=
  match rec with
  | some (k, v) => upsert cc k v
  | none => cc

/-- Every comma-separated token of every `Cache-Control` occurrence, in
order, trimmed the way `splitCacheControl` trims. -/
def allTokens (h : Headers) : List Str :=
  (cacheControlValues h).flatMap (fun vv => splitChar ',' (trimSpace vv))

/-- The value of the last record carrying a given name, the "later
occurrences overwrite earlier ones" reading of the spec. -/
def lastValue (l : List (Str × Str)) (k : Str) : Option Str :=
  match l with
  | [] => none
  | (k', v) :: rest =>
    match lastValue rest k with
    | some w => some w
    | none => if k' = k then some v else none

/-- Splitting a token on the first `=`, as the claim states it: a token
without `=` is present with an empty value; otherwise the name is everything
before the first `=` and the value everything after it. -/
def specSplitFirstEq (t : Str) : Str × Str :=
  if t.any (fun c => c = '=') then
    (t.takeWhile (fun c => ¬ c = '='), (t.dropWhile (fun c => ¬ c = '=')).tail)
  else (t, [])

/-- The directive records of the claim read literally: every token split on
the first `=`. -/
def specStatedDirectives (h : Headers) : List (Str × Str) :=
  (allTokens h).map (fun tok => specSplitFirstEq (trimSpace tok))

/-- The directive records of the amended claim: as stated, except that a
token containing more than one `=` is discarded. -/
def specAmendedRecord (u : Str) : Option (Str × Str) :=
  if 2 ≤ countEq '=' u then none else some (specSplitFirstEq u)

def specAmendedDirectives (h : Headers) : List (Str × Str) :=
  (allTokens h).filterMap (fun tok => specAmendedRecord (trimSpace tok))

theorem countEq_zero_any {c : Char} {u : Str} (h : countEq c u = 0) :
    u.any (fun x => x = c) = false := by
  induction u with
  | nil => rfl
  | cons x xs ih =>
    unfold countEq at h
    by_cases hx : x = c
    · simp [hx] at h
    · simp only [if_neg hx, Nat.zero_add] at h
      simp [List.any_cons, hx, ih h]

theorem countEq_pos_any {c : Char} {u : Str} (h : 0 < countEq c u) :
    u.any (fun x => x = c) = true := by
  induction u with
  | nil => simp [countEq] at h
  | cons x xs ih =>
    unfold countEq at h
    by_cases hx : x = c
    · simp [List.any_cons, hx]
    · simp only [if_neg hx, Nat.zero_add] at h
      simp [List.any_cons, ih h]

theorem codeRecord_eq_specAmendedRecord (u : Str) :
    codeRecord u = specAmendedRecord u := by
  unfold codeRecord specAmendedRecord specSplitFirstEq
  rcases hn : countEq '=' u with _ | n
  · rw [splitChar_of_countEq_zero _ _ hn]
    simp [countEq_zero_any hn]
  · rcases n with _ | m
    · rw [splitChar_of_countEq_one _ _ hn]
      simp [countEq_pos_any (c := '=') (u := u) (by omega)]
    · have hlen : (splitChar '=' u).length = m + 3 := by
        rw [splitChar_length, hn]
      rcases hsp : splitChar '=' u with _ | ⟨a, _ | ⟨b, _ | ⟨c, rest⟩⟩⟩ <;>
        rw [hsp] at hlen <;> simp_all

/-- Per-token step of the inner parsing loop equals applying the token's
record. -/
theorem parse_step_eq (cc : CacheControl) (vvv : Str) :
    (match splitCacheControlKeyValue vvv with
      | [k, v] => upsert cc k v
      | [k] => upsert cc k []
      | _ => cc) =
      applyRecord cc (codeRecord (trimSpace vvv)) := by
  unfold splitCacheControlKeyValue codeRecord applyRecord
  rcases hsp : splitChar '=' (trimSpace vvv) with _ | ⟨a, _ | ⟨b, _ | ⟨c, rest⟩⟩⟩ <;>
    rfl

theorem foldl_tokens_eq (toks : List Str) (cc : CacheControl) :
    toks.foldl
        (fun cc vvv =>
          match splitCacheControlKeyValue vvv with
          | [k, v] => upsert cc k v
          | [k] => upsert cc k []
          | _ => cc)
        cc =
      toks.foldl (fun cc tok => applyRecord cc (codeRecord (trimSpace tok)))
        cc := by
  simp only [parse_step_eq]

/-- `newCacheControl` is the flat fold of all tokens' records. -/
theorem newCacheControl_eq_foldl_allTokens (h : Headers) :
    newCacheControl h =
      (allTokens h).foldl
        (fun cc tok => applyRecord cc (codeRecord (trimSpace tok))) [] := by
  unfold newCacheControl allTokens
  generalize cacheControlValues h = vvs
  suffices hgen : ∀ (cc : CacheControl),
      vvs.foldl
          (fun cc vv =>
            (splitCacheControl vv).foldl
              (fun cc vvv =>
                match splitCacheControlKeyValue vvv with
                | [k, v] => upsert cc k v
                | [k] => upsert cc k []
                | _ => cc)
              cc)
          cc =
        (vvs.flatMap (fun vv => splitChar ',' (trimSpace vv))).foldl
          (fun cc tok => applyRecord cc (codeRecord (trimSpace tok))) cc by
    exact hgen []
  induction vvs with
  | nil => intro cc; rfl
  | cons vv rest ih =>
    intro cc
    simp only [List.foldl_cons, List.flatMap_cons, List.foldl_append]
    rw [← ih, splitCacheControl, foldl_tokens_eq]

/-- Looking a name up in the fold of a record list is the last record with
that name, else the start map's entry. -/
theorem lookup_foldl_records (toks : List Str) (cc : CacheControl)
    (k : Str) :
    (toks.foldl (fun cc tok => applyRecord cc (codeRecord (trimSpace tok)))
        cc).lookup k =
      match lastValue
          (toks.filterMap (fun tok => specAmendedRecord (trimSpace tok)))
          k with
      | some v => some v
      | none => cc.lookup k := by
  induction toks generalizing cc with
  | nil => simp [lastValue]
  | cons t ts ih =>
    simp only [List.foldl_cons, List.filterMap_cons]
    rw [codeRecord_eq_specAmendedRecord]
    rcases hrec : specAmendedRecord (trimSpace t) with _ | ⟨k', v⟩
    · have happ : applyRecord cc none = cc := rfl
      rw [happ]
      exact ih cc
    · have happ : applyRecord cc (some (k', v)) = upsert cc k' v := rfl
      rw [happ, ih (upsert cc k' v)]
      simp only [lastValue]
      rcases hlv : lastValue
          (ts.filterMap (fun tok => specAmendedRecord (trimSpace tok))) k with
        _ | w
      · by_cases hk : k' = k
        · subst hk
          simp [lookup_upsert]
        · simp [hk, lookup_upsert_ne cc k' k v hk]
      · simp

/-- C8, counterexample: for the header value `a=b=c` — a token containing two
`=` — splitting on the first `=` as the claim states would record the
directive `a` with value `b=c`, but `newCacheControl` splits on every `=`,
obtains three parts, and records nothing at all. -/
theorem newCacheControl_firstEq_cex :
    (newCacheControl
        [(cacheControlHeaderKey, ["a=b=c".toList])]).lookup "a".toList =
      none ∧
      lastValue
          (specStatedDirectives
            [(cacheControlHeaderKey, ["a=b=c".toList])]) "a".toList =
        some "b=c".toList := by
  refine ⟨by decide, by decide⟩

/-- C8, amended: `newCacheControl` splits each header occurrence on commas,
trims whitespace and splits each token on `=`: a token without `=` is
recorded as present with an empty value, a token with exactly one `=` as the
name/value pair the first-`=` split gives, and a token containing more than
one `=` is discarded entirely; when the same directive name occurs more than
once the later occurrence's value overwrites the earlier one. Stated as: the
parsed directive set looks every name up to the last record of the amended
per-token description. -/
theorem newCacheControl_matches_spec (h : Headers) (k : Str) :
    (newCacheControl h).lookup k = lastValue (specAmendedDirectives h) k := by
  rw [newCacheControl_eq_foldl_allTokens, lookup_foldl_records]
  rcases hlv : lastValue
      ((allTokens h).filterMap (fun tok => specAmendedRecord (trimSpace tok)))
      k with _ | w <;>
    simp [specAmendedDirectives, hlv, List.lookup]
